import Mathlib

/-! Verification of the conversation-export tool (`scripts/export.py`).

The development shallowly embeds the Python source: JSON values parsed from the
input log become the inductive type `JValue`; the regular-expression based
noise filters become executable functions over `List Char` whose semantics
mirror the concrete patterns in the source; the stateful extraction loop of
`parse_conversation` becomes explicit state passing over `PState`; Python
run-time errors (`AttributeError` on dynamically typed values) are made
explicit with `Except Unit`.
-/

namespace SaveConv

/-- JSON values as returned by `json.loads` for one input line.  JSON numbers
are modelled as integers (the conversation-log records contain no fractional
numbers); `null` doubles as the Python `None` returned by `dict.get` for a
missing key, matching how the source code consumes such values. -/
inductive JValue where
  | null : JValue
  | bool (b : Bool) : JValue
  | num (n : Int) : JValue
  | str (s : String) : JValue
  | arr (items : List JValue) : JValue
  | obj (fields : List (String × JValue)) : JValue

/-- Python `v == s` for a string literal `s`: equality holds only when `v` is
the same string (comparison of a string with any other JSON value is false). -/
def jIsStr (v : JValue) (s : String) : Bool :=
  match v with
  | .str t => t == s
  | _ => false

/-- Python truthiness (`if x:`) of a JSON-derived value. -/
def truthy : JValue → Bool
  | .null => false
  | .bool b => b
  | .num n => n != 0
  | .str s => s != ""
  | .arr items => !items.isEmpty
  | .obj fields => !fields.isEmpty

/-- Lookup of a key in a JSON object's field list.  JSON objects with a
duplicated key keep the last binding (as `json.loads` does), so the search
prefers the rightmost match. -/
def jlookup (fields : List (String × JValue)) (k : String) : Option JValue :=
  match fields with
  | [] => none
  | (k', v) :: rest =>
    match jlookup rest k with
    | some r => some r
    | none => if k' = k then some v else none

/-- Python `d.get(k)`: `None` when the key is missing, `AttributeError`
(modelled as `Except.error`) when the receiver is not a dict. -/
def dictGet (v : JValue) (k : String) : Except Unit JValue :=
  match v with
  | .obj fields => .ok ((jlookup fields k).getD .null)
  | _ => .error ()

/-- Python `d.get(k, default)`: the default applies only when the key is
missing, and a non-dict receiver raises. -/
def dictGetD (v : JValue) (k : String) (d : JValue) : Except Unit JValue :=
  match v with
  | .obj fields => .ok ((jlookup fields k).getD d)
  | _ => .error ()

/-- Characters matched by the regex class `\s` (and stripped by `str.strip()`),
restricted to the ASCII whitespace set actually produced by the logs. -/
def isWsChar (c : Char) : Bool :=
  c = ' ' || c = '\t' || c = '\n' || c = '\r' || c = '\x0b' || c = '\x0c'

/-- Whitespace-only test for a character list (regex `^\s*$`). -/
def isWsOnlyL (l : List Char) : Bool := l.all isWsChar

/-- Python `str.strip()` on a character list. -/
def pyStripL (l : List Char) : List Char :=
  ((l.dropWhile isWsChar).reverse.dropWhile isWsChar).reverse

/-- Python `str.strip()`. -/
def pyStrip (s : String) : String := String.mk (pyStripL s.data)

/-- Lowercasing used to model `re.IGNORECASE` matching of the ASCII-lowercase
tag literals. -/
def lowerL (l : List Char) : List Char := l.map Char.toLower

/-- Drop characters through the first occurrence of the literal `closeT`,
returning the suffix after it; `none` when the literal does not occur.  This
is the semantics of the non-greedy `.*?` followed by the closing-tag literal. -/
def dropThrough (closeT : List Char) : List Char → Option (List Char)
  | [] => none
  | c :: rest =>
    if closeT.isPrefixOf (c :: rest) then some ((c :: rest).drop closeT.length)
    else dropThrough closeT rest

/-- One fuelled pass of `re.sub(open + '.*?' + close, '', s)`: scan left to
right; at the first position where the opening literal matches and a closing
literal occurs later, delete through the closing literal and continue after
it.  The fuel only needs to dominate the length of the input. -/
def stripTagFuel (openT closeT : List Char) : Nat → List Char → List Char
  | 0, l => l
  | _ + 1, [] => []
  | fuel + 1, c :: rest =>
    if openT.isPrefixOf (c :: rest) then
      match dropThrough closeT ((c :: rest).drop openT.length) with
      | some after => stripTagFuel openT closeT fuel after
      | none => c :: stripTagFuel openT closeT fuel rest
    else c :: stripTagFuel openT closeT fuel rest

/-- Model of `re.sub(openT + '.*?' + closeT, '', s, flags=re.DOTALL)` with the
empty replacement string. -/
def stripTag (openT closeT : List Char) (l : List Char) : List Char :=
  stripTagFuel openT closeT l.length l

/-- Opening tag of `<local-command-caveat>`. -/
def lcO : List Char := "<local-command-caveat>".data
/-- Closing tag of `<local-command-caveat>`. -/
def lcC : List Char := "</local-command-caveat>".data
/-- Opening tag of `<command-name>`. -/
def cnO : List Char := "<command-name>".data
/-- Closing tag of `<command-name>`. -/
def cnC : List Char := "</command-name>".data
/-- Opening tag of `<command-message>`. -/
def cmO : List Char := "<command-message>".data
/-- Closing tag of `<command-message>`. -/
def cmC : List Char := "</command-message>".data
/-- Opening tag of `<command-args>`. -/
def caO : List Char := "<command-args>".data
/-- Closing tag of `<command-args>`. -/
def caC : List Char := "</command-args>".data
/-- Opening tag of `<local-command-stdout>`. -/
def soO : List Char := "<local-command-stdout>".data
/-- Closing tag of `<local-command-stdout>`. -/
def soC : List Char := "</local-command-stdout>".data
/-- Opening tag of `<system-reminder>`. -/
def srO : List Char := "<system-reminder>".data
/-- Closing tag of `<system-reminder>`. -/
def srC : List Char := "</system-reminder>".data

/-- The six recognized system-tag pairs, in the order the source's
`system_tags` list strips them. -/
def tagPairs : List (List Char × List Char) :=
  [(lcO, lcC), (cnO, cnC), (cmO, cmC), (caO, caC), (soO, soC), (srO, srC)]

/-- Sequential deletion of all recognized tag-delimited spans, in the order of
the source's `system_tags` loop (caveat, command-name, command-message,
command-args, stdout, system-reminder). -/
def stripSystemTags (l : List Char) : List Char :=
  stripTag srO srC (stripTag soO soC (stripTag caO caC
    (stripTag cmO cmC (stripTag cnO cnC (stripTag lcO lcC l)))))

/-- Matcher for the regex fragment `.*` followed by the literal `t` followed
by a continuation `k` (with `re.DOTALL`, so `.` matches anything): true iff
the list splits as `mid ++ t ++ rest` with `k rest`. -/
def matchThen (t : List Char) (k : List Char → Bool) : List Char → Bool
  | [] => t.isPrefixOf [] && k []
  | c :: rest =>
    (t.isPrefixOf (c :: rest) && k ((c :: rest).drop t.length)) || matchThen t k rest

/-- Matcher for the regex fragment `\s*` followed by the literal `t` followed
by a continuation `k`: true iff the list splits as `ws ++ t ++ rest` with `ws`
whitespace-only and `k rest`. -/
def skipWsThen (t : List Char) (k : List Char → Bool) : List Char → Bool
  | [] => t.isPrefixOf [] && k []
  | c :: rest =>
    (t.isPrefixOf (c :: rest) && k ((c :: rest).drop t.length))
      || (isWsChar c && skipWsThen t k rest)

/-- Whole-string match of `^open .* close \s*$` (spaces added for readability;
the actual patterns have none), case-insensitively and with `re.DOTALL`. -/
def matchWrapB (openT closeT : List Char) (s : String) : Bool :=
  let l := lowerL s.data
  openT.isPrefixOf l && matchThen closeT isWsOnlyL (l.drop openT.length)

/-- Whole-string match of the second noise pattern: a `<command-name>` span,
optional whitespace, a `<command-message>` span, optional whitespace, a
`<command-args>` span, then trailing whitespace; case-insensitive, `DOTALL`. -/
def matchCmdTripleB (s : String) : Bool :=
  let l := lowerL s.data
  cnO.isPrefixOf l &&
    matchThen cnC
      (skipWsThen cmO
        (matchThen cmC
          (skipWsThen caO (matchThen caC isWsOnlyL)))) (l.drop cnO.length)

/-- Fixed skill-loading preamble marker. -/
def skillMarker : List Char := "Base directory for this skill:".data

/-- Model of `is_system_noise` from the source: empty text, the skill-loading
preamble, one of the whole-string noise patterns, or nothing non-whitespace
remaining after stripping all recognized system tags. -/
def is_system_noise (text : String) : Bool :=
  text == ""
    || skillMarker.isPrefixOf (pyStripL text.data)
    || matchWrapB lcO lcC text
    || matchCmdTripleB text
    || matchWrapB soO soC text
    || isWsOnlyL text.data
    || isWsOnlyL (stripSystemTags text.data)

/-- Model of `clean_user_content`: strip `<system-reminder>` spans, then
`<local-command-caveat>` spans, then surrounding whitespace. -/
def clean_user_content (text : String) : String :=
  String.mk (pyStripL (stripTag lcO lcC (stripTag srO srC text.data)))

/-- Literal tail of the answer pattern's first alternative:
`\.\s*You can now continue`.  The `\s*` here is forced to the maximal
whitespace run because the following literal starts with a non-whitespace
character. -/
def contTail : List Char := "You can now continue".data

/-- End test for the group of the answer pattern: either the literal
`.` `\s*` `You can now continue` starts here, or the `$` anchor matches (end
of string, or just before a final newline). -/
def answerEnd (rest : List Char) : Bool :=
  (match rest with
   | '.' :: u => contTail.isPrefixOf (u.dropWhile isWsChar)
   | _ => false)
  || rest == [] || rest == ['\n']

/-- Shortest non-empty prefix (the non-greedy `(.+?)` group) whose remainder
satisfies `answerEnd`. -/
def grpSearch : List Char → Option (List Char)
  | [] => none
  | c :: rest =>
    if answerEnd rest then some [c]
    else match grpSearch rest with
      | some g => some (c :: g)
      | none => none

/-- Backtracking over the greedy `\s*` after the colon: try the longest
whitespace prefix first, shortening on failure.  `k` is how many whitespace
characters are still allowed to be consumed. -/
def wsBacktrack (r : List Char) : Nat → Option (List Char)
  | 0 => grpSearch r
  | k + 1 =>
    match grpSearch (r.drop (k + 1)) with
    | some g => some g
    | none => wsBacktrack r k

/-- Literal head of the answer pattern, up to the optional `s?`. -/
def answerLit : List Char := "User has answered your question".data

/-- Attempt to match the full answer pattern at the current position,
returning the captured group. -/
def answerMatchAt (l : List Char) : Option (List Char) :=
  if answerLit.isPrefixOf l then
    match l.drop answerLit.length with
    | 's' :: ':' :: m => wsBacktrack m (m.takeWhile isWsChar).length
    | ':' :: m => wsBacktrack m (m.takeWhile isWsChar).length
    | _ => none
  else none

/-- Model of `re.search` for the answer pattern: the leftmost position where
the full pattern matches, returning group 1. -/
def searchAnswer : List Char → Option (List Char)
  | [] => none
  | c :: rest =>
    match answerMatchAt (c :: rest) with
    | some g => some g
    | none => searchAnswer rest

/-- Model of `extract_user_answers`: scan the message's content list for
`tool_result` items whose string content matches the answer pattern, and
collect the stripped captured groups. -/
def answersOfItems : List JValue → List String
  | [] => []
  | item :: rest =>
    match item with
    | .obj ifs =>
      if jIsStr ((jlookup ifs "type").getD .null) "tool_result" then
        match (jlookup ifs "content").getD (.str "") with
        | .str s =>
          match searchAnswer s.data with
          | some g => String.mk (pyStripL g) :: answersOfItems rest
          | none => answersOfItems rest
        | _ => answersOfItems rest
      else answersOfItems rest
    | _ => answersOfItems rest

/-- Model of `extract_user_answers(message)`.  A non-dict message raises
`AttributeError` at `message.get`, modelled as `Except.error`. -/
def extract_user_answers (message : JValue) : Except Unit (List String) :=
  match message with
  | .obj fs =>
    match (jlookup fs "content").getD (.arr []) with
    | .arr items => .ok (answersOfItems items)
    | _ => .ok []
  | _ => .error ()

/-- Model of the text-collecting loop of `extract_user_content` over a content
list.  A `tool_result` item is skipped; a dict item's `text` value feeds the
noise filter when it is a string, is treated as noise when it is falsy, and
raises (inside `is_system_noise`'s call to `str.strip`) when it is a truthy
non-string; a plain string item feeds the noise filter directly. -/
def userTextsOf : List JValue → Except Unit (List String)
  | [] => .ok []
  | item :: rest =>
    match item with
    | .obj ifs =>
      if jIsStr ((jlookup ifs "type").getD .null) "tool_result" then userTextsOf rest
      else
        match jlookup ifs "text" with
        | some tv =>
          match tv with
          | .str s =>
            if is_system_noise s then userTextsOf rest
            else
              match userTextsOf rest with
              | .ok ts => .ok (clean_user_content s :: ts)
              | .error e => .error e
          | _ => if truthy tv then .error () else userTextsOf rest
        | none => userTextsOf rest
    | .str s =>
      if is_system_noise s then userTextsOf rest
      else
        match userTextsOf rest with
        | .ok ts => .ok (clean_user_content s :: ts)
        | .error e => .error e
    | _ => userTextsOf rest

/-- Model of `extract_user_content(message)`: a string payload is filtered and
cleaned; a list payload is folded by `userTextsOf`, joined with newlines, and
the combination is noise-filtered once more; any other payload yields `None`. -/
def extract_user_content (message : JValue) : Except Unit (Option String) :=
  match message with
  | .obj fs =>
    match jlookup fs "content" with
    | some (.str s) =>
      if is_system_noise s then .ok none else .ok (some (clean_user_content s))
    | some (.arr items) =>
      match userTextsOf items with
      | .error e => .error e
      | .ok [] => .ok none
      | .ok (t :: ts) =>
        let combined := String.intercalate "\n" (t :: ts)
        if combined ≠ "" ∧ is_system_noise combined then .ok none
        else .ok (some combined)
    | _ => .ok none
  | _ => .error ()

/-- Model of the item loop of `extract_assistant_content`: `text` items
contribute their stripped string when non-empty (raising when the `text` value
is not a string), `tool_use` items contribute their `name` value, `thinking`
and all other items are dropped. -/
def asstPartsOf : List JValue → Except Unit (List String × List JValue)
  | [] => .ok ([], [])
  | item :: rest =>
    match item with
    | .obj ifs =>
      if jIsStr ((jlookup ifs "type").getD .null) "text" then
        match (jlookup ifs "text").getD (.str "") with
        | .str s =>
          match asstPartsOf rest with
          | .error e => .error e
          | .ok (ts, tools) =>
            let s' := pyStrip s
            .ok (if s' ≠ "" then (s' :: ts, tools) else (ts, tools))
        | _ => .error ()
      else if jIsStr ((jlookup ifs "type").getD .null) "tool_use" then
        match asstPartsOf rest with
        | .error e => .error e
        | .ok (ts, tools) => .ok (ts, (jlookup ifs "name").getD (.str "Unknown") :: tools)
      else asstPartsOf rest
    | _ => asstPartsOf rest

/-- Model of `extract_assistant_content(message)`: the combined text (joined
with blank lines, `None` when no text item survives) and the ordered tool-name
list. -/
def extract_assistant_content (message : JValue) :
    Except Unit (Option String × List JValue) :=
  match message with
  | .obj fs =>
    match (jlookup fs "content").getD (.arr []) with
    | .arr items =>
      match asstPartsOf items with
      | .error e => .error e
      | .ok ([], tools) => .ok (none, tools)
      | .ok (t :: ts, tools) => .ok (some (String.intercalate "\n\n" (t :: ts)), tools)
    | _ => .ok (none, [])
  | _ => .error ()

/-- One output turn, as built by `parse_conversation`: the dict with keys
`role`, `content`, `tools`, `answers`, `timestamp`.  The `answers` key is
created on demand in the source and read back with `.get('answers', [])`, so
an absent key and an empty list are interchangeable and are both modelled by
`[]`. -/
structure Turn where
  role : String
  content : String
  tools : List JValue
  answers : List String
  timestamp : JValue

/-- Accumulated extraction state: the turn list and the `seen_content` set.
Only membership and insertion are used on the set, so a list of the inserted
strings is an adequate model. -/
structure PState where
  turns : List Turn
  seen : List String

/-- Test whether the last accumulated turn exists and is an assistant turn
(`turns and turns[-1]['role'] == 'assistant'`). -/
def lastIsAssistant : List Turn → Bool
  | [] => false
  | [t] => t.role == "assistant"
  | _ :: t :: rest => lastIsAssistant (t :: rest)

/-- In-place mutation of the last turn (`turns[-1]`), as a pure update. -/
def updateLast (f : Turn → Turn) : List Turn → List Turn
  | [] => []
  | [t] => [f t]
  | t :: t' :: rest => t :: updateLast f (t' :: rest)

/-- Merge a tool-only record's tool names into the last turn when that turn is
an assistant turn; otherwise leave the state unchanged. -/
def mergeTools (st : PState) (tools : List JValue) : PState :=
  if lastIsAssistant st.turns then
    { st with turns := updateLast (fun t => { t with tools := t.tools ++ tools }) st.turns }
  else st

/-- Attachment of extracted answers to a trailing assistant turn (the
`turns[-1]['answers'].extend(answers)` block, guarded by `answers and turns
and turns[-1]['role'] == 'assistant'`). -/
def userAttach (st : PState) (answers : List String) : PState :=
  if answers ≠ [] ∧ lastIsAssistant st.turns = true then
    { st with turns := updateLast (fun t => { t with answers := t.answers ++ answers }) st.turns }
  else st

/-- Processing of one `user` record inside `parse_conversation`'s loop:
attach extracted answers to a trailing assistant turn, then append a new user
turn when the extracted content is truthy and unseen. -/
def userStep (st : PState) (message ts : JValue) : Except Unit PState :=
  match extract_user_answers message with
  | .error e => .error e
  | .ok answers =>
    match extract_user_content message with
    | .error e => .error e
    | .ok none => .ok (userAttach st answers)
    | .ok (some c) =>
      if c ≠ "" ∧ c ∉ (userAttach st answers).seen then
        .ok ⟨(userAttach st answers).turns ++ [⟨"user", c, [], [], ts⟩],
             c :: (userAttach st answers).seen⟩
      else .ok (userAttach st answers)

/-- Processing of one `assistant` record inside `parse_conversation`'s loop:
append a new assistant turn when the text is truthy and unseen; otherwise,
for a tool-only record, merge the tool names into a trailing assistant turn. -/
def assistantStep (st : PState) (message ts : JValue) : Except Unit PState :=
  match extract_assistant_content message with
  | .error e => .error e
  | .ok (content, tools) =>
    match content with
    | some c =>
      if c ≠ "" ∧ c ∉ st.seen then
        .ok ⟨st.turns ++ [⟨"assistant", c, tools, [], ts⟩], c :: st.seen⟩
      else if !tools.isEmpty && c == "" then .ok (mergeTools st tools)
      else .ok st
    | none => if !tools.isEmpty then .ok (mergeTools st tools) else .ok st

/-- Processing of one parsed record: dispatch on its `type` field.  A record
that is not a JSON object raises `AttributeError` at `entry.get`. -/
def processEntry (st : PState) (entry : JValue) : Except Unit PState :=
  match dictGet entry "type", dictGet entry "timestamp" with
  | .ok etype, .ok ts =>
    if jIsStr etype "user" then
      match dictGetD entry "message" (.obj []) with
      | .ok m => userStep st m ts
      | .error e => .error e
    else if jIsStr etype "assistant" then
      match dictGetD entry "message" (.obj []) with
      | .ok m => assistantStep st m ts
      | .error e => .error e
    else .ok st
  | _, _ => .error ()

/-- The line loop of `parse_conversation`: strip each line, skip blank lines,
skip lines the JSON parser `p` rejects (`json.JSONDecodeError`), and feed
parsed records to `processEntry`.  The JSON parser itself is standard-library
behaviour, so it enters the model as the parameter `p`. -/
def runLines (p : String → Option JValue) : List String → PState → Except Unit PState
  | [], st => .ok st
  | line :: rest, st =>
    if pyStrip line = "" then runLines p rest st
    else
      match p (pyStrip line) with
      | none => runLines p rest st
      | some entry =>
        match processEntry st entry with
        | .ok st' => runLines p rest st'
        | .error e => .error e

/-- Model of `parse_conversation`: run the loop from the empty state and
return the accumulated turns. -/
def parse_conversation (p : String → Option JValue) (lines : List String) :
    Except Unit (List Turn) :=
  match runLines p lines ⟨[], []⟩ with
  | .ok st => .ok st.turns
  | .error e => .error e

/-- Number of leading `#` characters of a line. -/
def leadHashes (l : List Char) : Nat := (l.takeWhile (· = '#')).length

/-- Test whether the character after the leading hash run exists and is
whitespace (the `\s` of the heading regex). -/
def hashFollowedByWs (l : List Char) : Bool :=
  match l.drop (leadHashes l) with
  | c :: _ => isWsChar c
  | [] => false

/-- Per-line model of the heading regex `^(#{2,6})\s`: with `k` leading
hashes, the pattern matches exactly when `2 ≤ k ≤ 6` and a whitespace
character follows the run (for `k > 6` every candidate prefix of 2–6 hashes is
followed by another `#`, so there is no match); on a match of fewer than six
hashes one `#` is prepended. -/
def shiftLine (line : String) : String :=
  let k := leadHashes line.data
  if 2 ≤ k ∧ k ≤ 6 ∧ hashFollowedByWs line.data then
    if k < 6 then "#" ++ line else line
  else line

/-- Model of `shift_headings`: demote headings line by line. -/
def shift_headings (text : String) : String :=
  String.intercalate "\n" ((text.splitOn "\n").map shiftLine)

mutual

/-- Model of Python `repr` on JSON-derived values (used by `str` on lists and
dicts).  String escaping inside `repr` is simplified to plain quoting: the
claims under verification never inspect these rendered characters. -/
def pyRepr : JValue → String
  | .null => "None"
  | .bool b => if b then "True" else "False"
  | .num n => toString n
  | .str s => "'" ++ s ++ "'"
  | .arr items => "[" ++ String.intercalate ", " (pyReprList items) ++ "]"
  | .obj fields => "\x7b" ++ String.intercalate ", " (pyReprFields fields) ++ "\x7d"

/-- Element renderings of a JSON array, via `pyRepr`. -/
def pyReprList : List JValue → List String
  | [] => []
  | v :: rest => pyRepr v :: pyReprList rest

/-- Entry renderings of a JSON object, via `pyRepr`. -/
def pyReprFields : List (String × JValue) → List String
  | [] => []
  | (k, v) :: rest => ("'" ++ k ++ "': " ++ pyRepr v) :: pyReprFields rest

end

/-- Model of Python `str` on JSON-derived values: a string renders as itself,
everything else as its `repr`. -/
def pyStr : JValue → String
  | .str s => s
  | v => pyRepr v

/-- One `"question"="answer"` match of the `re.findall` pattern
`"([^"]+)"="([^"]+)"` starting right after an opening quote: the first group
is the maximal non-empty quote-free run, then the literal `"="`, then the
second group and its closing quote; returns the groups and the suffix after
the match. -/
def pairAt (l : List Char) : Option (String × String × List Char) :=
  let q := l.takeWhile (· ≠ '"')
  if q.isEmpty then none
  else
    match l.drop q.length with
    | '"' :: '=' :: '"' :: rest2 =>
      let a := rest2.takeWhile (· ≠ '"')
      if a.isEmpty then none
      else
        match rest2.drop a.length with
        | '"' :: rest3 => some (String.mk q, String.mk a, rest3)
        | _ => none
    | _ => none

/-- Fuelled scan of `re.findall(r'"([^"]+)"="([^"]+)"', s)`: non-overlapping
matches, scanning left to right and resuming after each match.  The fuel only
needs to dominate the length of the input. -/
def findPairsFuel : Nat → List Char → List (String × String)
  | 0, _ => []
  | _ + 1, [] => []
  | fuel + 1, c :: rest =>
    if c = '"' then
      match pairAt rest with
      | some (q, a, rest') => (q, a) :: findPairsFuel fuel rest'
      | none => findPairsFuel fuel rest
    else findPairsFuel fuel rest

/-- Model of `re.findall(r'"([^"]+)"="([^"]+)"', s)`. -/
def findPairs (l : List Char) : List (String × String) :=
  findPairsFuel l.length l

/-- Python `s.replace('Z', '+00:00')`: every occurrence replaced. -/
def replaceZ : List Char → List Char
  | [] => []
  | c :: rest =>
    if c = 'Z' then '+' :: '0' :: '0' :: ':' :: '0' :: '0' :: replaceZ rest
    else c :: replaceZ rest

/-- Datetime components as produced by `datetime.fromisoformat` (the offset is
validated but not stored: `strftime('%Y-%m-%d %H:%M')` prints only the naive
components). -/
structure PyDateTime where
  year : Nat
  month : Nat
  day : Nat
  hour : Nat
  minute : Nat

/-- Decimal digit value of a character, if any. -/
def digitVal (c : Char) : Option Nat :=
  if '0' ≤ c ∧ c ≤ '9' then some (c.toNat - 48) else none

/-- Parse exactly two decimal digits. -/
def parse2 : List Char → Option (Nat × List Char)
  | a :: b :: rest =>
    match digitVal a, digitVal b with
    | some x, some y => some (10 * x + y, rest)
    | _, _ => none
  | _ => none

/-- Parse exactly four decimal digits. -/
def parse4 (l : List Char) : Option (Nat × List Char) :=
  match parse2 l with
  | some (hi, rest) =>
    match parse2 rest with
    | some (lo, rest') => some (100 * hi + lo, rest')
    | none => none
  | none => none

/-- Gregorian leap-year test. -/
def isLeap (y : Nat) : Bool :=
  (y % 4 = 0 && y % 100 ≠ 0) || y % 400 = 0

/-- Length of a month. -/
def daysInMonth (y m : Nat) : Nat :=
  if m = 2 then (if isLeap y then 29 else 28)
  else if m = 4 ∨ m = 6 ∨ m = 9 ∨ m = 11 then 30
  else 31

/-- Parse `[:SS[.ffffff]]` (seconds and fraction are validated and then
discarded, since the rendered format stops at minutes). -/
def parseSecFrac (l : List Char) : Option (List Char) :=
  match l with
  | ':' :: rest =>
    match parse2 rest with
    | some (ss, rest') =>
      if ss ≥ 60 then none
      else
        match rest' with
        | '.' :: rest'' =>
          let frac := rest''.takeWhile (fun c => (digitVal c).isSome)
          if frac.length = 3 ∨ frac.length = 6 then some (rest''.drop frac.length)
          else none
        | _ => some rest'
    | none => none
  | _ => some l

/-- Parse the optional UTC offset `±HH:MM[:SS[.ffffff]]`. -/
def parseOffset (l : List Char) : Option (List Char) :=
  match l with
  | [] => some []
  | sign :: rest =>
    if sign = '+' ∨ sign = '-' then
      match parse2 rest with
      | some (oh, rest1) =>
        match rest1 with
        | ':' :: rest2 =>
          match parse2 rest2 with
          | some (om, rest3) =>
            if oh ≥ 24 ∨ om ≥ 60 then none else parseSecFrac rest3
          | none => none
        | _ => none
      | none => none
    else none

/-- Model of Python `datetime.fromisoformat`, restricted to the
`YYYY-MM-DD[<sep>HH:MM[:SS[.fff|.ffffff]]][±HH:MM[:SS]]` shapes (the separator
may be any single character, as in CPython); the whole string must be
consumed and every component is range-checked. -/
def fromisoformat (l : List Char) : Option PyDateTime :=
  match parse4 l with
  | none => none
  | some (y, r1) =>
    match r1 with
    | '-' :: r2 =>
      match parse2 r2 with
      | none => none
      | some (mo, r3) =>
        match r3 with
        | '-' :: r4 =>
          match parse2 r4 with
          | none => none
          | some (d, r5) =>
            if y = 0 ∨ mo = 0 ∨ mo > 12 ∨ d = 0 ∨ d > daysInMonth y mo then none
            else
              match r5 with
              | [] => some ⟨y, mo, d, 0, 0⟩
              | _sep :: r6 =>
                match parse2 r6 with
                | none => none
                | some (hh, r7) =>
                  if hh ≥ 24 then none
                  else
                    match r7 with
                    | ':' :: r8 =>
                      match parse2 r8 with
                      | none => none
                      | some (mi, r9) =>
                        if mi ≥ 60 then none
                        else
                          match parseSecFrac r9 with
                          | none => none
                          | some r10 =>
                            match parseOffset r10 with
                            | some [] => some ⟨y, mo, d, hh, mi⟩
                            | _ => none
                    | _ => none
        | _ => none
    | _ => none

/-- Zero-padded two-digit decimal rendering (`%m`, `%d`, `%H`, `%M`). -/
def pad2 (n : Nat) : String :=
  if n < 10 then "0" ++ toString n else toString n

/-- Zero-padded four-digit decimal rendering (`%Y`). -/
def pad4 (n : Nat) : String :=
  if n < 10 then "000" ++ toString n
  else if n < 100 then "00" ++ toString n
  else if n < 1000 then "0" ++ toString n
  else toString n

/-- Model of `dt.strftime('%Y-%m-%d %H:%M')`. -/
def fmtYMDHM (dt : PyDateTime) : String :=
  pad4 dt.year ++ "-" ++ pad2 dt.month ++ "-" ++ pad2 dt.day ++ " "
    ++ pad2 dt.hour ++ ":" ++ pad2 dt.minute

/-- Date-line computation of `format_markdown`.  `now` models
`datetime.now().strftime('%Y-%m-%d %H:%M')`, the only
invocation-time-dependent input of the renderer.  A truthy non-string
timestamp raises `AttributeError` at `.replace`, which the source catches and
maps to `'Unknown'`. -/
def dateStrOf (turns : List Turn) (now : String) : String :=
  match turns with
  | [] => now
  | t :: _ =>
    if truthy t.timestamp then
      match t.timestamp with
      | .str s =>
        match fromisoformat (replaceZ s.data) with
        | some dt => fmtYMDHM dt
        | none => "Unknown"
      | _ => "Unknown"
    else now

/-- Rendering of one turn: the emitted lines, paired with the turn as the loop
leaves it (the loop only reads the turn's fields; the heading shift is applied
to the local copy of the assistant text). -/
def renderTurn (turn : Turn) : List String × Turn :=
  let body := if turn.role = "user" then turn.content else shift_headings turn.content
  let header := if turn.role = "user" then "## User" else "## Claude"
  ([header, "", body, ""]
      ++ turn.tools.map (fun tool => "> Used tool: " ++ pyStr tool)
      ++ (if turn.tools.isEmpty then [] else [""])
      ++ (turn.answers.map (fun answer =>
            (findPairs answer.data).map (fun qr => ["**" ++ qr.1 ++ "**", "", qr.2, ""]))).flatten.flatten
      ++ ["---", ""],
   { role := turn.role, content := turn.content, tools := turn.tools,
     answers := turn.answers, timestamp := turn.timestamp })

/-- Model of `format_markdown`: header lines, then the rendered turns, joined
with newlines. -/
def format_markdown (turns : List Turn) (topic session_id now : String) : String :=
  String.intercalate "\n"
    (["# Conversation: " ++ topic, "",
      "**Date:** " ++ dateStrOf turns now,
      "**Session:** " ++ session_id, "", "---", ""]
      ++ (turns.map (fun t => (renderTurn t).1)).flatten)

/-- The whole extraction-plus-rendering pipeline of `main` (excluding the
filesystem wrapper): parse the lines, abort (`none`) on a Python error or when
no turns were extracted, otherwise render. -/
def pipeline (p : String → Option JValue) (lines : List String)
    (topic session_id now : String) : Option String :=
  match parse_conversation p lines with
  | .error _ => none
  | .ok [] => none
  | .ok (t :: ts) => some (format_markdown (t :: ts) topic session_id now)

/-! Spec-side definitions.

The following definitions are written from the specification's sentences (not
from the source); the refinement theorems below compare them with the code
models above. -/

/-- Heading level of a line, per the spec's notion of "a markdown heading of
level k at the start of the line": `k ≥ 1` hash marks followed by a whitespace
character. -/
def headingLevel (line : String) : Option Nat :=
  if 1 ≤ leadHashes line.data ∧ hashFollowedByWs line.data then some (leadHashes line.data)
  else none

/-- Per-line heading demotion as the spec states it: a heading of level 2–5 is
demoted by exactly one level, a level-6 heading and every other line are left
unchanged. -/
def specShiftLine (line : String) : String :=
  match headingLevel line with
  | some k => if 2 ≤ k ∧ k ≤ 5 then "#" ++ line else line
  | none => line

/-! Helper lemmas about the boolean pattern matchers and list utilities. -/

/-- Boolean prefix test as an existential split. -/
theorem isPrefixOf_exists (p l : List Char) : p.isPrefixOf l = true ↔ ∃ t, l = p ++ t := by
  rw [List.isPrefixOf_iff_prefix]
  constructor
  · rintro ⟨t, rfl⟩; exact ⟨t, rfl⟩
  · rintro ⟨t, rfl⟩; exact ⟨t, rfl⟩

/-- Correctness of the `.*`-then-literal matcher: it succeeds exactly on a
split `a ++ t ++ b` with the continuation accepting `b`. -/
theorem matchThen_iff (t : List Char) (k : List Char → Bool) :
    ∀ l, matchThen t k l = true ↔ ∃ a b, l = a ++ t ++ b ∧ k b = true := by
  intro l
  induction l with
  | nil =>
    simp only [matchThen, Bool.and_eq_true, isPrefixOf_exists]
    constructor
    · rintro ⟨⟨b, hb⟩, hk⟩
      obtain ⟨rfl, rfl⟩ : t = [] ∧ b = [] := by
        have := hb.symm
        rw [List.append_eq_nil] at this
        exact this
      exact ⟨[], [], rfl, hk⟩
    · rintro ⟨a, b, hab, hk⟩
      obtain ⟨⟨rfl, rfl⟩, rfl⟩ : (a = [] ∧ t = []) ∧ b = [] := by
        have := hab.symm
        rw [List.append_eq_nil, List.append_eq_nil] at this
        exact this
      exact ⟨⟨[], rfl⟩, hk⟩
  | cons c rest ih =>
    simp only [matchThen, Bool.or_eq_true, Bool.and_eq_true, isPrefixOf_exists]
    constructor
    · rintro (⟨⟨b, hb⟩, hk⟩ | h)
      · refine ⟨[], b, by simpa using hb, ?_⟩
        rwa [hb, List.drop_left] at hk
      · obtain ⟨a, b, rfl, hk⟩ := ih.mp h
        exact ⟨c :: a, b, rfl, hk⟩
    · rintro ⟨a, b, hab, hk⟩
      cases a with
      | nil =>
        left
        refine ⟨⟨b, by simpa using hab⟩, ?_⟩
        have : c :: rest = t ++ b := by simpa using hab
        rwa [this, List.drop_left]
      | cons a0 a' =>
        right
        refine ih.mpr ⟨a', b, ?_, hk⟩
        simpa using congrArg List.tail hab

/-- Correctness of the `\s*`-then-literal matcher: it succeeds exactly on a
split `w ++ t ++ b` with `w` whitespace-only and the continuation accepting
`b`. -/
theorem skipWsThen_iff (t : List Char) (k : List Char → Bool) :
    ∀ l, skipWsThen t k l = true ↔
      ∃ w b, l = w ++ t ++ b ∧ isWsOnlyL w = true ∧ k b = true := by
  intro l
  induction l with
  | nil =>
    simp only [skipWsThen, Bool.and_eq_true, isPrefixOf_exists]
    constructor
    · rintro ⟨⟨b, hb⟩, hk⟩
      obtain ⟨rfl, rfl⟩ : t = [] ∧ b = [] := by
        have := hb.symm
        rw [List.append_eq_nil] at this
        exact this
      exact ⟨[], [], rfl, rfl, hk⟩
    · rintro ⟨w, b, hab, hw, hk⟩
      obtain ⟨⟨rfl, rfl⟩, rfl⟩ : (w = [] ∧ t = []) ∧ b = [] := by
        have := hab.symm
        rw [List.append_eq_nil, List.append_eq_nil] at this
        exact this
      exact ⟨⟨[], rfl⟩, hk⟩
  | cons c rest ih =>
    simp only [skipWsThen, Bool.or_eq_true, Bool.and_eq_true, isPrefixOf_exists]
    constructor
    · rintro (⟨⟨b, hb⟩, hk⟩ | ⟨hc, h⟩)
      · refine ⟨[], b, by simpa using hb, by simp [isWsOnlyL], ?_⟩
        rwa [hb, List.drop_left] at hk
      · obtain ⟨w, b, rfl, hw, hk⟩ := ih.mp h
        exact ⟨c :: w, b, rfl, by simp [isWsOnlyL] at hw ⊢; exact ⟨hc, hw⟩, hk⟩
    · rintro ⟨w, b, hab, hw, hk⟩
      cases w with
      | nil =>
        left
        refine ⟨⟨b, by simpa using hab⟩, ?_⟩
        have : c :: rest = t ++ b := by simpa using hab
        rwa [this, List.drop_left]
      | cons w0 w' =>
        right
        have hc : c = w0 := by simpa using congrArg (List.headD · ' ') hab
        have htl : rest = w' ++ t ++ b := by simpa using congrArg List.tail hab
        simp only [isWsOnlyL, List.all_cons, Bool.and_eq_true] at hw
        exact ⟨by rw [hc]; exact hw.1, ih.mpr ⟨w', b, htl, hw.2, hk⟩⟩

/-- Dropping through a literal yields a strictly shorter list when the
literal is non-empty. -/
theorem dropThrough_length (closeT : List Char) (hc : closeT ≠ []) :
    ∀ l after, dropThrough closeT l = some after → after.length < l.length := by
  intro l
  induction l with
  | nil => intro after h; simp [dropThrough] at h
  | cons c rest ih =>
    intro after h
    simp only [dropThrough] at h
    split at h
    next hpre =>
      obtain ⟨t, ht⟩ := (isPrefixOf_exists _ _).mp hpre
      injection h with h
      subst h
      rw [ht, List.drop_left]
      simp only [List.length_append]
      cases closeT with
      | nil => exact absurd rfl hc
      | cons a b => simp
    next =>
      have := ih after h
      simpa using Nat.lt_succ_of_lt this

/-- One recognized system-tag wrapper, per the spec's sentence "consists
entirely of one or more recognized system-tag wrappers ... with nothing
non-whitespace outside them": `WrapSeq l` holds when `l` is a concatenation of
whitespace characters and complete `<tag>body</tag>` wrappers drawn from the
recognized tag vocabulary, with arbitrary wrapper bodies. -/
inductive WrapSeq : List Char → Prop where
  | nil : WrapSeq []
  | ws {c : Char} {l : List Char} : isWsChar c = true → WrapSeq l → WrapSeq (c :: l)
  | wrap {pair : List Char × List Char} {body rest : List Char} :
      pair ∈ tagPairs → WrapSeq rest → WrapSeq (pair.1 ++ body ++ pair.2 ++ rest)

/-- The noise classification exactly as claimed: empty or whitespace-only,
or entirely recognized system-tag wrappers with nothing non-whitespace
outside them, or the stripped form begins with the skill-loading marker. -/
def NoiseClaim (s : String) : Prop :=
  s = "" ∨ (isWsOnlyL s.data = true) ∨ WrapSeq s.data ∨ ∃ r, pyStripL s.data = skillMarker ++ r

/-- Whole-string caveat pattern, declaratively: the lowercased text is an
opening caveat tag, an arbitrary body, the closing tag, then whitespace. -/
def CaveatWhole (s : String) : Prop :=
  ∃ mid w, lowerL s.data = lcO ++ mid ++ lcC ++ w ∧ isWsOnlyL w = true

/-- Whole-string stdout pattern, declaratively. -/
def StdoutWhole (s : String) : Prop :=
  ∃ mid w, lowerL s.data = soO ++ mid ++ soC ++ w ∧ isWsOnlyL w = true

/-- Whole-string command-triple pattern, declaratively: complete
command-name, command-message and command-args spans separated by whitespace,
then trailing whitespace. -/
def CmdTripleWhole (s : String) : Prop :=
  ∃ m1 w1 m2 w2 m3 w3,
    lowerL s.data =
        cnO ++ m1 ++ cnC ++ w1 ++ cmO ++ m2 ++ cmC ++ w2 ++ caO ++ m3 ++ caC ++ w3
      ∧ isWsOnlyL w1 = true ∧ isWsOnlyL w2 = true ∧ isWsOnlyL w3 = true

/-- Amended noise characterization: the operational content of the
classifier, stated declaratively clause by clause.  It differs from
`NoiseClaim` in replacing the wrapper-decomposition clause by the
case-insensitive whole-string patterns together with the sequential
tag-stripping residue test. -/
def NoiseAmended (s : String) : Prop :=
  s = "" ∨ (∃ r, pyStripL s.data = skillMarker ++ r) ∨ CaveatWhole s ∨ CmdTripleWhole s
    ∨ StdoutWhole s ∨ isWsOnlyL s.data = true ∨ isWsOnlyL (stripSystemTags s.data) = true

/-- The boolean whole-string wrapper matcher agrees with its declarative
reading. -/
theorem matchWrapB_iff (openT closeT : List Char) (s : String) :
    matchWrapB openT closeT s = true ↔
      ∃ mid w, lowerL s.data = openT ++ mid ++ closeT ++ w ∧ isWsOnlyL w = true := by
  unfold matchWrapB
  simp only [Bool.and_eq_true, isPrefixOf_exists]
  constructor
  · rintro ⟨⟨r, hr⟩, hm⟩
    rw [hr, List.drop_left] at hm
    obtain ⟨a, b, rfl, hb⟩ := (matchThen_iff _ _ _).mp hm
    refine ⟨a, b, ?_, hb⟩
    rw [hr]
    simp [List.append_assoc]
  · rintro ⟨mid, w, h, hw⟩
    have h' : lowerL s.data = openT ++ (mid ++ closeT ++ w) := by
      rw [h]
      simp [List.append_assoc]
    refine ⟨⟨mid ++ closeT ++ w, h'⟩, ?_⟩
    rw [h', List.drop_left]
    exact (matchThen_iff _ _ _).mpr ⟨mid, w, rfl, hw⟩

/-- The boolean command-triple matcher agrees with its declarative reading. -/
theorem matchCmdTripleB_iff (s : String) :
    matchCmdTripleB s = true ↔ CmdTripleWhole s := by
  unfold matchCmdTripleB CmdTripleWhole
  simp only [Bool.and_eq_true, isPrefixOf_exists]
  constructor
  · rintro ⟨⟨r, hr⟩, hm⟩
    rw [hr, List.drop_left] at hm
    obtain ⟨m1, b1, rfl, h1⟩ := (matchThen_iff _ _ _).mp hm
    obtain ⟨w1, b2, rfl, hw1, h2⟩ := (skipWsThen_iff _ _ _).mp h1
    obtain ⟨m2, b3, rfl, h3⟩ := (matchThen_iff _ _ _).mp h2
    obtain ⟨w2, b4, rfl, hw2, h4⟩ := (skipWsThen_iff _ _ _).mp h3
    obtain ⟨m3, w3, rfl, hw3⟩ := (matchThen_iff _ _ _).mp h4
    refine ⟨m1, w1, m2, w2, m3, w3, ?_, hw1, hw2, hw3⟩
    rw [hr]
    simp [List.append_assoc]
  · rintro ⟨m1, w1, m2, w2, m3, w3, h, hw1, hw2, hw3⟩
    have h' : lowerL s.data =
        cnO ++ (m1 ++ cnC ++ (w1 ++ cmO ++ (m2 ++ cmC ++ (w2 ++ caO ++ (m3 ++ caC ++ w3))))) := by
      rw [h]
      simp [List.append_assoc]
    refine ⟨⟨_, h'⟩, ?_⟩
    rw [h', List.drop_left]
    apply (matchThen_iff _ _ _).mpr
    refine ⟨m1, w1 ++ cmO ++ (m2 ++ cmC ++ (w2 ++ caO ++ (m3 ++ caC ++ w3))),
      by simp [List.append_assoc], ?_⟩
    apply (skipWsThen_iff _ _ _).mpr
    refine ⟨w1, m2 ++ cmC ++ (w2 ++ caO ++ (m3 ++ caC ++ w3)),
      by simp [List.append_assoc], hw1, ?_⟩
    apply (matchThen_iff _ _ _).mpr
    refine ⟨m2, w2 ++ caO ++ (m3 ++ caC ++ w3), by simp [List.append_assoc], ?_⟩
    apply (skipWsThen_iff _ _ _).mpr
    refine ⟨w2, m3 ++ caC ++ w3, by simp [List.append_assoc], hw2, ?_⟩
    exact (matchThen_iff _ _ _).mpr ⟨m3, w3, by simp [List.append_assoc], hw3⟩

/-- Concrete counterexample input for the noise-classifier claim: one
`<system-reminder>` wrapper whose body is itself a complete
`<system-reminder>...</system-reminder>` span. -/
def nestedNoiseCex : String :=
  "<system-reminder><system-reminder></system-reminder></system-reminder>"

set_option maxHeartbeats 2000000 in
/-- C2 (counterexample): the claimed "if and only if" fails.  The input
consists entirely of one recognized system-tag wrapper (the outer
`<system-reminder> ... </system-reminder>` with the inner span as its body),
yet `is_system_noise` returns `false`: the non-greedy strip deletes only
through the first closing tag, leaving the dangling `</system-reminder>`. -/
theorem is_system_noise_claim_cex :
    is_system_noise nestedNoiseCex = false ∧ NoiseClaim nestedNoiseCex := by
  constructor
  · decide
  · refine Or.inr (Or.inr (Or.inl ?_))
    have hmem : ((srO, srC) : List Char × List Char) ∈ tagPairs := by
      unfold tagPairs
      exact List.mem_cons_of_mem _ (List.mem_cons_of_mem _ (List.mem_cons_of_mem _
        (List.mem_cons_of_mem _ (List.mem_cons_of_mem _ (List.mem_cons_self _ _)))))
    have hw : WrapSeq (srO ++ "<system-reminder></system-reminder>".data ++ srC ++ []) :=
      WrapSeq.wrap hmem WrapSeq.nil
    have heq : srO ++ "<system-reminder></system-reminder>".data ++ srC ++ [] =
        nestedNoiseCex.data := by decide
    exact heq ▸ hw

/-- C2 (amended): `is_system_noise` returns `true` exactly when the text is
empty, or its stripped form begins with the skill-loading marker, or the whole
text matches (case-insensitively) the caveat, command-triple or stdout
whole-string patterns with trailing whitespace, or the text is
whitespace-only, or nothing non-whitespace remains after sequentially
deleting all recognized non-greedy tag spans. -/
theorem is_system_noise_amended (s : String) :
    is_system_noise s = true ↔ NoiseAmended s := by
  unfold is_system_noise NoiseAmended CaveatWhole StdoutWhole
  simp only [Bool.or_eq_true, beq_iff_eq, isPrefixOf_exists, matchWrapB_iff,
    matchCmdTripleB_iff, or_assoc]

/-- C5: `shift_headings` realizes the spec's per-line demotion: every line
that is a markdown heading of level 2–5 (hash marks at the start of the line
followed by a whitespace character) is demoted by exactly one level, a
level-6 heading is unchanged, and every other line (including level-1
headings) is unchanged. -/
theorem shift_headings_spec (text : String) :
    shift_headings text = String.intercalate "\n" ((text.splitOn "\n").map specShiftLine) := by
  unfold shift_headings
  congr 1
  apply List.map_congr_left
  intro line _
  by_cases hw : hashFollowedByWs line.data = true
  · by_cases h1 : 1 ≤ leadHashes line.data
    · have hspec : specShiftLine line =
          if 2 ≤ leadHashes line.data ∧ leadHashes line.data ≤ 5 then "#" ++ line
          else line := by
        unfold specShiftLine headingLevel
        rw [if_pos ⟨h1, hw⟩]
      rw [hspec]
      unfold shiftLine
      by_cases h2 : 2 ≤ leadHashes line.data
      · by_cases h6 : leadHashes line.data ≤ 6
        · rw [if_pos ⟨h2, h6, hw⟩]
          by_cases h5 : leadHashes line.data ≤ 5
          · rw [if_pos (show leadHashes line.data < 6 by omega), if_pos ⟨h2, h5⟩]
          · rw [if_neg (show ¬leadHashes line.data < 6 by omega), if_neg (fun h => h5 h.2)]
        · rw [if_neg (fun h => h6 h.2.1), if_neg (fun h => h6 (Nat.le_trans h.2 (by omega)))]
      · rw [if_neg (fun h => h2 h.1), if_neg (fun h => h2 h.1)]
    · have hspec : specShiftLine line = line := by
        unfold specShiftLine headingLevel
        rw [if_neg (fun h => h1 h.1)]
      rw [hspec]
      unfold shiftLine
      rw [if_neg (fun h => h1 (Nat.le_of_lt h.1))]
  · have hspec : specShiftLine line = line := by
      unfold specShiftLine headingLevel
      rw [if_neg (fun h => hw h.2)]
    rw [hspec]
    unfold shiftLine
    rw [if_neg (fun h => hw h.2.2)]

/-- C8: a line that is blank after stripping, or that the JSON parser
rejects, is skipped: processing the remaining lines from the same state, with
no error, no new turn and no change to the accumulated state. -/
theorem runLines_skips_bad_line (p : String → Option JValue) (line : String)
    (rest : List String) (st : PState)
    (h : pyStrip line = "" ∨ p (pyStrip line) = none) :
    runLines p (line :: rest) st = runLines p rest st := by
  conv_lhs => rw [runLines]
  rcases h with h | h
  · rw [if_pos h]
  · by_cases hb : pyStrip line = ""
    · rw [if_pos hb]
    · rw [if_neg hb, h]

/-- C8 (witness): a whitespace-only line is skipped by the reader. -/
theorem runLines_skips_bad_line_witness :
    runLines (fun _ => none) ["   "] ⟨[], []⟩ = runLines (fun _ => none) [] ⟨[], []⟩ :=
  runLines_skips_bad_line (fun _ => none) "   " [] ⟨[], []⟩ (Or.inl (by decide))

/-- C9: rendering never mutates any turn: mapping each turn to the value the
rendering loop leaves behind is the identity on the turn sequence (the
heading shift is applied only to the rendered copy of the assistant text). -/
theorem renderTurn_preserves_turns (turns : List Turn) :
    turns.map (fun t => (renderTurn t).2) = turns := by
  induction turns with
  | nil => rfl
  | cons t rest ih =>
    rw [List.map_cons, ih]
    cases t
    rfl

/-- Reduction of the last-turn test on a cons-cons list. -/
theorem lastIsAssistant_cons_cons (a b : Turn) (l : List Turn) :
    lastIsAssistant (a :: b :: l) = lastIsAssistant (b :: l) := rfl

/-- The last-turn test on a non-empty list looks only at the last element. -/
theorem lastIsAssistant_concat (init : List Turn) (t : Turn) :
    lastIsAssistant (init ++ [t]) = (t.role == "assistant") := by
  induction init with
  | nil => rfl
  | cons a rest ih =>
    cases rest with
    | nil => rfl
    | cons b rest' => exact ih

/-- The last-element update on a non-empty list rewrites only the last
element. -/
theorem updateLast_concat (f : Turn → Turn) (init : List Turn) (t : Turn) :
    updateLast f (init ++ [t]) = init ++ [f t] := by
  induction init with
  | nil => rfl
  | cons a rest ih =>
    cases rest with
    | nil => rfl
    | cons b rest' =>
      show a :: updateLast f ((b :: rest') ++ [t]) = a :: ((b :: rest') ++ [f t])
      rw [ih]

/-- Reduction of `userStep` when answer extraction succeeds and content
extraction yields no text. -/
theorem userStep_eq_none (st : PState) (m ts : JValue) (answers : List String)
    (ha : extract_user_answers m = .ok answers)
    (hc : extract_user_content m = .ok none) :
    userStep st m ts = .ok (userAttach st answers) := by
  unfold userStep
  rw [ha, hc]

/-- Reduction of `userStep` when answer extraction succeeds and content
extraction yields a text. -/
theorem userStep_eq_some (st : PState) (m ts : JValue) (answers : List String)
    (c : String) (ha : extract_user_answers m = .ok answers)
    (hc : extract_user_content m = .ok (some c)) :
    userStep st m ts =
      if c ≠ "" ∧ c ∉ (userAttach st answers).seen then
        .ok ⟨(userAttach st answers).turns ++ [⟨"user", c, [], [], ts⟩],
             c :: (userAttach st answers).seen⟩
      else .ok (userAttach st answers) := by
  unfold userStep
  rw [ha, hc]

/-- Reduction of `assistantStep` when extraction yields no text. -/
theorem assistantStep_eq_none (st : PState) (m ts : JValue) (tools : List JValue)
    (hx : extract_assistant_content m = .ok (none, tools)) :
    assistantStep st m ts =
      if !tools.isEmpty then .ok (mergeTools st tools) else .ok st := by
  unfold assistantStep
  rw [hx]

/-- Reduction of `assistantStep` when extraction yields a text. -/
theorem assistantStep_eq_some (st : PState) (m ts : JValue) (c : String)
    (tools : List JValue)
    (hx : extract_assistant_content m = .ok (some c, tools)) :
    assistantStep st m ts =
      if c ≠ "" ∧ c ∉ st.seen then
        .ok ⟨st.turns ++ [⟨"assistant", c, tools, [], ts⟩], c :: st.seen⟩
      else if !tools.isEmpty && c == "" then .ok (mergeTools st tools)
      else .ok st := by
  unfold assistantStep
  rw [hx]

/-- C3: an assistant record with tool invocations but no text merges its tool
names, in order, into a trailing assistant turn and creates no turn; with no
trailing assistant turn (empty sequence, or a user turn last) it leaves the
state untouched and its tool names are discarded. -/
theorem assistantStep_tool_only (st : PState) (message ts : JValue)
    (tools : List JValue)
    (hx : extract_assistant_content message = .ok (none, tools)) (hne : tools ≠ []) :
    (∀ init lastT, st.turns = init ++ [lastT] → lastT.role = "assistant" →
        assistantStep st message ts =
          .ok ⟨init ++ [{ lastT with tools := lastT.tools ++ tools }], st.seen⟩)
      ∧ (st.turns = [] → assistantStep st message ts = .ok st)
      ∧ (∀ init lastT, st.turns = init ++ [lastT] → lastT.role ≠ "assistant" →
          assistantStep st message ts = .ok st) := by
  have hne' : tools.isEmpty = false := by
    cases tools with
    | nil => exact absurd rfl hne
    | cons a l => rfl
  have hstep : assistantStep st message ts = .ok (mergeTools st tools) := by
    unfold assistantStep
    rw [hx]
    simp [hne']
  refine ⟨?_, ?_, ?_⟩
  · intro init lastT hturns hrole
    rw [hstep]
    unfold mergeTools
    rw [hturns, lastIsAssistant_concat, updateLast_concat]
    simp [hrole]
  · intro hturns
    rw [hstep]
    unfold mergeTools
    rw [hturns]
    simp [lastIsAssistant]
  · intro init lastT hturns hrole
    rw [hstep]
    unfold mergeTools
    rw [hturns, lastIsAssistant_concat]
    rw [beq_eq_false_iff_ne.mpr hrole]
    simp

/-- Demo assistant turn used by concrete witnesses. -/
def asstHiTurn : Turn := ⟨"assistant", "Hi", [], [], JValue.null⟩

/-- Demo tool-only assistant message used by concrete witnesses. -/
def toolOnlyMsg : JValue :=
  JValue.obj [("content", JValue.arr
    [JValue.obj [("type", JValue.str "tool_use"), ("name", JValue.str "Bash")]])]

/-- Demo duplicated-text assistant message used by concrete witnesses. -/
def dupTextMsg : JValue :=
  JValue.obj [("content", JValue.arr
    [JValue.obj [("type", JValue.str "text"), ("text", JValue.str "Hi")],
     JValue.obj [("type", JValue.str "tool_use"), ("name", JValue.str "Bash")]])]

/-- C3 (witness): a tool-only assistant record after an assistant turn merges
its tool name; the same record on an empty state changes nothing. -/
theorem assistantStep_tool_only_witness :
    assistantStep ⟨[asstHiTurn], ["Hi"]⟩ toolOnlyMsg JValue.null =
      .ok ⟨[⟨"assistant", "Hi", [JValue.str "Bash"], [], JValue.null⟩], ["Hi"]⟩ ∧
    assistantStep ⟨[], []⟩ toolOnlyMsg JValue.null = .ok ⟨[], []⟩ := by
  constructor
  · exact (assistantStep_tool_only ⟨[asstHiTurn], ["Hi"]⟩ toolOnlyMsg JValue.null
      [JValue.str "Bash"] rfl (by simp)).1 [] asstHiTurn rfl rfl
  · exact (assistantStep_tool_only ⟨[], []⟩ toolOnlyMsg JValue.null
      [JValue.str "Bash"] rfl (by simp)).2.1 rfl

/-- C10: an assistant record with both text and tool invocations whose text
was already seen produces no turn and its tool names are dropped entirely:
the state is returned unchanged, with nothing merged into the prior turn. -/
theorem assistantStep_dup_text_drops_tools (st : PState) (message ts : JValue)
    (c : String) (tools : List JValue)
    (hx : extract_assistant_content message = .ok (some c, tools))
    (hc : c ≠ "") (hseen : c ∈ st.seen) :
    assistantStep st message ts = .ok st := by
  unfold assistantStep
  rw [hx]
  simp [hseen, hc]

/-- C10 (witness): a duplicate text with a tool invocation leaves the state
unchanged even though an assistant turn is last. -/
theorem assistantStep_dup_text_drops_tools_witness :
    assistantStep ⟨[asstHiTurn], ["Hi"]⟩ dupTextMsg JValue.null =
      .ok ⟨[asstHiTurn], ["Hi"]⟩ :=
  assistantStep_dup_text_drops_tools ⟨[asstHiTurn], ["Hi"]⟩ dupTextMsg JValue.null
    "Hi" [JValue.str "Bash"] rfl (by decide) (by simp)

/-- Extraction invariant: the accumulated turn texts are pairwise distinct,
and every accumulated text is non-empty and recorded in `seen_content`. -/
def contentsOk (st : PState) : Prop :=
  (st.turns.map Turn.content).Nodup ∧ ∀ t ∈ st.turns, t.content ∈ st.seen ∧ t.content ≠ ""

/-- A content-preserving last-element update preserves the content list. -/
theorem map_content_updateLast (f : Turn → Turn) (hf : ∀ t, (f t).content = t.content) :
    ∀ l : List Turn, (updateLast f l).map Turn.content = l.map Turn.content := by
  intro l
  induction l with
  | nil => rfl
  | cons t rest ih =>
    cases rest with
    | nil => simp [updateLast, hf]
    | cons b rest' =>
      show Turn.content t :: (updateLast f (b :: rest')).map Turn.content
          = Turn.content t :: (b :: rest').map Turn.content
      rw [ih]

/-- A content-preserving last-element update preserves the invariant. -/
theorem contentsOk_updateLast (st : PState) (f : Turn → Turn)
    (hf : ∀ t, (f t).content = t.content) (h : contentsOk st) :
    contentsOk ⟨updateLast f st.turns, st.seen⟩ := by
  constructor
  · show ((updateLast f st.turns).map Turn.content).Nodup
    rw [map_content_updateLast f hf]
    exact h.1
  · intro t' ht'
    have hmem : t'.content ∈ (updateLast f st.turns).map Turn.content :=
      List.mem_map_of_mem Turn.content ht'
    rw [map_content_updateLast f hf] at hmem
    obtain ⟨t0, ht0, hc⟩ := List.mem_map.mp hmem
    rw [← hc]
    exact h.2 t0 ht0

/-- Appending a fresh, non-empty text preserves the invariant. -/
theorem contentsOk_append (st : PState) (t : Turn) (h : contentsOk st)
    (hne : t.content ≠ "") (hnot : t.content ∉ st.seen) :
    contentsOk ⟨st.turns ++ [t], t.content :: st.seen⟩ := by
  constructor
  · show ((st.turns ++ [t]).map Turn.content).Nodup
    rw [List.map_append]
    refine List.Nodup.append h.1 (List.nodup_singleton _) ?_
    intro c hc hc'
    rw [List.map_singleton, List.mem_singleton] at hc'
    obtain ⟨t0, ht0, hc0⟩ := List.mem_map.mp hc
    exact hnot (hc' ▸ hc0 ▸ (h.2 t0 ht0).1)
  · intro t' ht'
    rcases List.mem_append.mp ht' with hold | hnew
    · exact ⟨List.mem_cons_of_mem _ (h.2 t' hold).1, (h.2 t' hold).2⟩
    · rw [List.mem_singleton] at hnew
      subst hnew
      exact ⟨List.mem_cons_self _ _, hne⟩

/-- Merging tool names preserves the invariant. -/
theorem contentsOk_mergeTools (st : PState) (tools : List JValue)
    (h : contentsOk st) : contentsOk (mergeTools st tools) := by
  unfold mergeTools
  by_cases hl : lastIsAssistant st.turns = true
  · rw [if_pos hl]
    exact contentsOk_updateLast st _ (fun t => rfl) h
  · rw [if_neg hl]
    exact h

/-- The answers-attachment step preserves the invariant. -/
theorem contentsOk_userAttach (st : PState) (answers : List String)
    (h : contentsOk st) : contentsOk (userAttach st answers) := by
  unfold userAttach
  by_cases hcond : answers ≠ [] ∧ lastIsAssistant st.turns = true
  · rw [if_pos hcond]
    exact contentsOk_updateLast st _ (fun t => rfl) h
  · rw [if_neg hcond]
    exact h

/-- The user-record step preserves the invariant. -/
theorem userStep_contentsOk (st : PState) (m ts : JValue) (st' : PState)
    (hok : userStep st m ts = .ok st') (h : contentsOk st) : contentsOk st' := by
  cases ha : extract_user_answers m with
  | error e =>
    unfold userStep at hok
    rw [ha] at hok
    exact absurd hok (by simp)
  | ok answers =>
    have h1 : contentsOk (userAttach st answers) := contentsOk_userAttach st answers h
    cases hc : extract_user_content m with
    | error e =>
      unfold userStep at hok
      rw [ha, hc] at hok
      exact absurd hok (by simp)
    | ok copt =>
      cases copt with
      | none =>
        rw [userStep_eq_none st m ts answers ha hc] at hok
        simp only [Except.ok.injEq] at hok
        exact hok ▸ h1
      | some c =>
        rw [userStep_eq_some st m ts answers c ha hc] at hok
        by_cases hcc : c ≠ "" ∧ c ∉ (userAttach st answers).seen
        · rw [if_pos hcc] at hok
          simp only [Except.ok.injEq] at hok
          exact hok ▸ contentsOk_append (userAttach st answers)
            ⟨"user", c, [], [], ts⟩ h1 hcc.1 hcc.2
        · rw [if_neg hcc] at hok
          simp only [Except.ok.injEq] at hok
          exact hok ▸ h1

/-- The assistant-record step preserves the invariant. -/
theorem assistantStep_contentsOk (st : PState) (m ts : JValue) (st' : PState)
    (hok : assistantStep st m ts = .ok st') (h : contentsOk st) : contentsOk st' := by
  cases hx : extract_assistant_content m with
  | error e =>
    unfold assistantStep at hok
    rw [hx] at hok
    exact absurd hok (by simp)
  | ok ct =>
    obtain ⟨copt, tools⟩ := ct
    cases copt with
    | none =>
      rw [assistantStep_eq_none st m ts tools hx] at hok
      by_cases ht : (!tools.isEmpty) = true
      · rw [if_pos ht] at hok
        simp only [Except.ok.injEq] at hok
        exact hok ▸ contentsOk_mergeTools st tools h
      · rw [if_neg ht] at hok
        simp only [Except.ok.injEq] at hok
        exact hok ▸ h
    | some c =>
      rw [assistantStep_eq_some st m ts c tools hx] at hok
      by_cases hcc : c ≠ "" ∧ c ∉ st.seen
      · rw [if_pos hcc] at hok
        simp only [Except.ok.injEq] at hok
        exact hok ▸ contentsOk_append st ⟨"assistant", c, tools, [], ts⟩ h hcc.1 hcc.2
      · rw [if_neg hcc] at hok
        by_cases hm : (!tools.isEmpty && c == "") = true
        · rw [if_pos hm] at hok
          simp only [Except.ok.injEq] at hok
          exact hok ▸ contentsOk_mergeTools st tools h
        · rw [if_neg hm] at hok
          simp only [Except.ok.injEq] at hok
          exact hok ▸ h

/-- Reduction of `processEntry` once the `type` and `timestamp` lookups are
known to succeed. -/
theorem processEntry_eq (st : PState) (e : JValue) (etype ts : JValue)
    (h1 : dictGet e "type" = .ok etype) (h2 : dictGet e "timestamp" = .ok ts) :
    processEntry st e =
      if jIsStr etype "user" then
        match dictGetD e "message" (.obj []) with
        | .ok m => userStep st m ts
        | .error err => .error err
      else if jIsStr etype "assistant" then
        match dictGetD e "message" (.obj []) with
        | .ok m => assistantStep st m ts
        | .error err => .error err
      else .ok st := by
  unfold processEntry
  rw [h1, h2]

/-- One record step preserves the invariant. -/
theorem processEntry_contentsOk (st : PState) (e : JValue) (st' : PState)
    (hok : processEntry st e = .ok st') (h : contentsOk st) : contentsOk st' := by
  cases h1 : dictGet e "type" with
  | error u =>
    unfold processEntry at hok
    rw [h1] at hok
    exact absurd hok (by simp)
  | ok etype =>
    cases h2 : dictGet e "timestamp" with
    | error u =>
      unfold processEntry at hok
      rw [h1, h2] at hok
      exact absurd hok (by simp)
    | ok ts =>
      rw [processEntry_eq st e etype ts h1 h2] at hok
      by_cases hu : jIsStr etype "user" = true
      · rw [if_pos hu] at hok
        cases h3 : dictGetD e "message" (.obj []) with
        | error u => rw [h3] at hok; exact absurd hok (by simp)
        | ok m =>
          rw [h3] at hok
          exact userStep_contentsOk st m ts st' hok h
      · rw [if_neg hu] at hok
        by_cases hasst : jIsStr etype "assistant" = true
        · rw [if_pos hasst] at hok
          cases h3 : dictGetD e "message" (.obj []) with
          | error u => rw [h3] at hok; exact absurd hok (by simp)
          | ok m =>
            rw [h3] at hok
            exact assistantStep_contentsOk st m ts st' hok h
        · rw [if_neg hasst] at hok
          simp only [Except.ok.injEq] at hok
          exact hok ▸ h

/-- The line loop preserves the invariant. -/
theorem runLines_contentsOk (p : String → Option JValue) :
    ∀ (lines : List String) (st st' : PState),
      runLines p lines st = .ok st' → contentsOk st → contentsOk st' := by
  intro lines
  induction lines with
  | nil =>
    intro st st' hok h
    simp only [runLines, Except.ok.injEq] at hok
    exact hok ▸ h
  | cons line rest ih =>
    intro st st' hok h
    rw [runLines] at hok
    split at hok
    next hblank => exact ih st st' hok h
    next hblank =>
      split at hok
      next heq => exact ih st st' hok h
      next entry heq =>
        split at hok
        next st1 hpe => exact ih st1 st' hok (processEntry_contentsOk st entry st1 hpe h)
        next u hpe => exact absurd hok (by simp)

/-- C1: whenever `parse_conversation` succeeds, no two turns in the produced
sequence have identical text bodies, and every produced text body is
non-empty: a turn is only appended when its resolved text is non-empty and
unseen, and the text is then recorded in the running set. -/
theorem parse_conversation_content_nodup (p : String → Option JValue)
    (lines : List String) (turns : List Turn)
    (hok : parse_conversation p lines = .ok turns) :
    (turns.map Turn.content).Nodup ∧ ∀ t ∈ turns, t.content ≠ "" := by
  unfold parse_conversation at hok
  cases hr : runLines p lines ⟨[], []⟩ with
  | error u => rw [hr] at hok; exact absurd hok (by simp)
  | ok st =>
    rw [hr] at hok
    simp only [Except.ok.injEq] at hok
    have h := runLines_contentsOk p lines ⟨[], []⟩ st hr ⟨List.nodup_nil, by simp⟩
    subst hok
    exact ⟨h.1, fun t ht => (h.2 t ht).2⟩

/-- Demo parser used by the C1 witness: one fixed user record. -/
def helloUserParse : String → Option JValue := fun s =>
  if s = "u" then
    some (JValue.obj [("type", JValue.str "user"),
      ("message", JValue.obj [("content", JValue.str "Hello")])])
  else none

/-- C1 (witness): a log repeating the same user record twice yields a single
turn, and the resulting text list is duplicate-free and non-empty. -/
theorem parse_conversation_content_nodup_witness :
    (([⟨"user", "Hello", [], [], JValue.null⟩] : List Turn).map Turn.content).Nodup ∧
      ∀ t ∈ ([⟨"user", "Hello", [], [], JValue.null⟩] : List Turn), t.content ≠ "" :=
  parse_conversation_content_nodup helloUserParse ["u", "u"]
    [⟨"user", "Hello", [], [], JValue.null⟩] rfl

/-- Test for a content item of the reserved `tool_result` kind. -/
def isToolResultItem (v : JValue) : Bool :=
  match v with
  | .obj ifs => jIsStr ((jlookup ifs "type").getD .null) "tool_result"
  | _ => false

/-- Removal of `tool_result` items from a content list value. -/
def filterContentItems (v : JValue) : JValue :=
  match v with
  | .arr items => .arr (items.filter (fun i => !isToolResultItem i))
  | v => v

/-- A copy of the message with every `tool_result` entry removed from its
content list; used to state that the content extraction ignores such
entries. -/
def dropToolResults (message : JValue) : JValue :=
  match message with
  | .obj fs =>
    .obj (fs.map (fun kv => if kv.1 = "content" then (kv.1, filterContentItems kv.2) else kv))
  | v => v

/-- Lookup in a field list whose `content` values have been transformed. -/
theorem jlookup_map_content (fs : List (String × JValue)) (g : JValue → JValue)
    (k : String) :
    jlookup (fs.map (fun kv => if kv.1 = "content" then (kv.1, g kv.2) else kv)) k =
      if k = "content" then (jlookup fs k).map g else jlookup fs k := by
  induction fs with
  | nil => by_cases hk : k = "content" <;> simp [jlookup, hk]
  | cons kv rest ih =>
    obtain ⟨k', v⟩ := kv
    simp only [List.map_cons]
    by_cases hk : k = "content"
    · subst hk
      rw [if_pos rfl]
      by_cases hk' : k' = "content"
      · subst hk'
        simp only [if_pos rfl, jlookup, ih]
        cases jlookup rest "content" <;> simp
      · rw [if_neg hk']
        simp only [jlookup, ih]
        cases jlookup rest "content" <;> simp [hk']
    · rw [if_neg hk]
      by_cases hk' : k' = "content"
      · subst hk'
        simp only [if_pos rfl, jlookup, ih]
        rw [if_neg hk]
        cases jlookup rest k with
        | some r => rfl
        | none =>
          rw [if_neg (fun h => hk h.symm), if_neg (fun h => hk h.symm)]
      · rw [if_neg hk']
        simp only [jlookup, ih]
        rw [if_neg hk]

/-- The text-collecting loop of the user-content extraction ignores
`tool_result` items: filtering them out changes nothing. -/
theorem userTextsOf_filter (items : List JValue) :
    userTextsOf (items.filter (fun i => !isToolResultItem i)) = userTextsOf items := by
  induction items with
  | nil => rfl
  | cons item rest ih =>
    by_cases hi : isToolResultItem item = true
    · rw [List.filter_cons_of_neg (by simp [hi])]
      cases item with
      | obj ifs =>
        unfold isToolResultItem at hi
        rw [ih]
        conv_rhs => rw [userTextsOf]
        rw [if_pos hi]
      | null => simp [isToolResultItem] at hi
      | bool b => simp [isToolResultItem] at hi
      | num n => simp [isToolResultItem] at hi
      | str s => simp [isToolResultItem] at hi
      | arr l => simp [isToolResultItem] at hi
    · rw [List.filter_cons_of_pos (by simp [hi])]
      cases item <;> simp only [userTextsOf, ih]

/-- The user-content extraction ignores `tool_result` entries: a message with
those entries removed extracts the same content. -/
theorem extract_user_content_dropToolResults (message : JValue) :
    extract_user_content (dropToolResults message) = extract_user_content message := by
  cases message with
  | obj fs =>
    simp only [dropToolResults, extract_user_content]
    rw [jlookup_map_content fs filterContentItems "content", if_pos rfl]
    cases hc : jlookup fs "content" with
    | none => rfl
    | some v =>
      cases v with
      | str s => rfl
      | arr items =>
        simp only [Option.map_some', filterContentItems, userTextsOf_filter]
      | null => rfl
      | bool b => rfl
      | num n => rfl
      | obj g => rfl
  | null => rfl
  | bool b => rfl
  | num n => rfl
  | str s => rfl
  | arr items => rfl

/-- C4: a user record whose payload carries answer-pattern tool results never
renders those answers as their own turn — the content extraction is blind to
`tool_result` entries — and, whenever the accumulated sequence ends in an
assistant turn, the captured answer blocks are appended to that turn's
`answers` list. -/
theorem userStep_answers_attach (st : PState) (message ts : JValue)
    (answers : List String) (copt : Option String) (init : List Turn) (lastT : Turn)
    (ha : extract_user_answers message = .ok answers) (hne : answers ≠ [])
    (hturns : st.turns = init ++ [lastT]) (hrole : lastT.role = "assistant")
    (hc : extract_user_content message = .ok copt) :
    (∃ rest seen', userStep st message ts =
        .ok ⟨(init ++ [{ lastT with answers := lastT.answers ++ answers }]) ++ rest, seen'⟩)
    ∧ extract_user_content (dropToolResults message) = extract_user_content message := by
  refine ⟨?_, extract_user_content_dropToolResults message⟩
  have hla : lastIsAssistant st.turns = true := by
    rw [hturns, lastIsAssistant_concat, hrole]
    exact beq_self_eq_true _
  have hatt : userAttach st answers =
      ⟨init ++ [{ lastT with answers := lastT.answers ++ answers }], st.seen⟩ := by
    unfold userAttach
    rw [if_pos ⟨hne, hla⟩, hturns, updateLast_concat]
  cases copt with
  | none =>
    refine ⟨[], st.seen, ?_⟩
    rw [userStep_eq_none st message ts answers ha hc, hatt, List.append_nil]
  | some c =>
    rw [userStep_eq_some st message ts answers c ha hc, hatt]
    by_cases hcc : c ≠ "" ∧ c ∉
        (⟨init ++ [{ lastT with answers := lastT.answers ++ answers }], st.seen⟩ : PState).seen
    · refine ⟨[⟨"user", c, [], [], ts⟩], c :: st.seen, ?_⟩
      rw [if_pos hcc]
    · refine ⟨[], st.seen, ?_⟩
      rw [if_neg hcc, List.append_nil]

/-- Demo user message with an AskUserQuestion tool-result answer, used by the
C4 witness. -/
def answersMsg : JValue :=
  JValue.obj [("content", JValue.arr
    [JValue.obj [("type", JValue.str "tool_result"),
      ("content", JValue.str
        "User has answered your questions: \"Q\"=\"A\". You can now continue")]])]

/-- C4 (witness): the captured answer attaches to the trailing assistant turn
and produces no turn of its own. -/
theorem userStep_answers_attach_witness :
    (∃ rest seen', userStep ⟨[asstHiTurn], ["Hi"]⟩ answersMsg JValue.null =
        .ok ⟨([] ++ [{ asstHiTurn with
          answers := asstHiTurn.answers ++ ["\"Q\"=\"A\""] }]) ++ rest, seen'⟩)
    ∧ extract_user_content (dropToolResults answersMsg) =
        extract_user_content answersMsg :=
  userStep_answers_attach ⟨[asstHiTurn], ["Hi"]⟩ answersMsg JValue.null
    ["\"Q\"=\"A\""] none [] asstHiTurn rfl (by simp) rfl rfl rfl

/-- Demo turn with an absent (null) timestamp. -/
def noTsTurn : Turn := ⟨"user", "Hello", [], [], JValue.null⟩

/-- C7 (counterexample): with a non-empty turn list whose first timestamp is
absent, the date line is the current-time string — not `'Unknown'` and not a
parse of the timestamp — contradicting "the current date exactly when no
turns exist". -/
theorem dateStrOf_claim_cex :
    dateStrOf [noTsTurn] "1999-12-31 23:59" = "1999-12-31 23:59" ∧
      ("1999-12-31 23:59" : String) ≠ "Unknown" ∧ ([noTsTurn] : List Turn) ≠ [] :=
  ⟨rfl, by decide, by simp⟩

/-- C7 (amended): the date line is the current-time string when there are no
turns or the first turn's timestamp is falsy (absent, null, or empty); with a
truthy string timestamp it is the `YYYY-MM-DD HH:MM` rendering of the
ISO-8601 parse (after normalizing `Z`) when that parse succeeds and
`'Unknown'` when it fails; and with a truthy non-string timestamp it is
`'Unknown'` (the `.replace` call raises and is caught). -/
theorem dateStrOf_amended (turns : List Turn) (now : String) :
    (turns = [] → dateStrOf turns now = now) ∧
    (∀ t rest, turns = t :: rest → truthy t.timestamp = false →
      dateStrOf turns now = now) ∧
    (∀ t rest s, turns = t :: rest → t.timestamp = .str s → s ≠ "" →
      dateStrOf turns now =
        (match fromisoformat (replaceZ s.data) with
         | some dt => fmtYMDHM dt
         | none => "Unknown")) ∧
    (∀ t rest, turns = t :: rest → truthy t.timestamp = true →
      (∀ s, t.timestamp ≠ .str s) → dateStrOf turns now = "Unknown") := by
  refine ⟨?_, ?_, ?_, ?_⟩
  · rintro rfl
    rfl
  · rintro t rest rfl hf
    simp only [dateStrOf, hf]
    rfl
  · rintro t rest s rfl hts hs
    simp only [dateStrOf, hts]
    rw [if_pos (by simp [truthy, hs])]
  · rintro t rest rfl htr hns
    simp only [dateStrOf, htr, if_true]

/-- C7 (witness): a turn list whose first timestamp is null renders the
current-time string. -/
theorem dateStrOf_amended_witness :
    dateStrOf [noTsTurn] "2000-01-01 00:00" = "2000-01-01 00:00" :=
  (dateStrOf_amended [noTsTurn] "2000-01-01 00:00").2.1 noTsTurn [] rfl rfl

/-- C6 (counterexample): two invocations over the same input with different
current-time strings produce different documents when the first extracted
turn carries no timestamp, so the output is not a function of the records,
topic and session identifier alone. -/
theorem pipeline_claim_cex :
    pipeline helloUserParse ["u"] "topic" "sess" "1111-11-11 11:11" ≠
      pipeline helloUserParse ["u"] "topic" "sess" "2222-22-22 22:22" := by
  decide

/-- C6 (amended): the pipeline output does not depend on the invocation time
provided the first extracted turn's timestamp is truthy; under that proviso
two invocations over the same input yield byte-identical content. -/
theorem pipeline_deterministic (p : String → Option JValue) (lines : List String)
    (topic sid n₁ n₂ : String)
    (h : ∀ t rest, parse_conversation p lines = .ok (t :: rest) →
      truthy t.timestamp = true) :
    pipeline p lines topic sid n₁ = pipeline p lines topic sid n₂ := by
  cases hp : parse_conversation p lines with
  | error u => simp [pipeline, hp]
  | ok l =>
    cases l with
    | nil => simp [pipeline, hp]
    | cons t rest =>
      have ht := h t rest hp
      have hd : dateStrOf (t :: rest) n₁ = dateStrOf (t :: rest) n₂ := by
        simp only [dateStrOf, ht, if_true]
      simp only [pipeline, hp]
      unfold format_markdown
      rw [hd]

/-- Demo parser for the determinism witness: one timestamped assistant
record. -/
def tsAsstParse : String → Option JValue := fun s =>
  if s = "a" then
    some (JValue.obj [("type", JValue.str "assistant"),
      ("timestamp", JValue.str "2024-05-06T07:08:09Z"),
      ("message", JValue.obj [("content", JValue.arr
        [JValue.obj [("type", JValue.str "text"), ("text", JValue.str "Hi there")]])])])
  else none

/-- C6 (witness): with a timestamped first turn the rendered document is
independent of the invocation time. -/
theorem pipeline_deterministic_witness :
    pipeline tsAsstParse ["a"] "topic" "sess" "1111-11-11 11:11" =
      pipeline tsAsstParse ["a"] "topic" "sess" "2222-22-22 22:22" :=
  pipeline_deterministic tsAsstParse ["a"] "topic" "sess" "1111-11-11 11:11"
    "2222-22-22 22:22" (by
      intro t rest h
      rw [show parse_conversation tsAsstParse ["a"] = Except.ok
          [⟨"assistant", "Hi there", [], [], JValue.str "2024-05-06T07:08:09Z"⟩]
        from rfl] at h
      injection h with h1
      injection h1 with h2 h3
      subst h2
      rfl)

end SaveConv
